import Mathlib

/-!
Verification of the COFF/PE object-file parser (`lib/Object/COFFObjectFile.cpp`,
`include/llvm/Object/COFF.h`) against its specification.

Modelling conventions:
* A memory image is a `List Nat` of bytes; addresses are indices from 0
  (the C++ `base()` pointer is address 0 of the model).
* Machine integers are `Nat` with an explicit `% 2^w` wherever the C++
  arithmetic can wrap in a way any check or result depends on
  (`uintptr_t` arithmetic in `getObject`, the `uint32_t` section-end
  computation in `getRvaPtr`, the `unsigned int` size in `getMethodSize`).
  Pointer increments whose wrap-around no check or result depends on are
  kept as exact naturals.
* Byte reads reduce the stored value mod 256, modelling `uint8_t` access;
  multi-byte fields are assembled little-endian exactly as the
  `support::ulittleN_t` accessors do. Reads past the end of the model list
  yield 0, standing for the unmapped bytes the unchecked code paths would
  touch.
* Fallible routines return `Except ObjError α` mirroring the C++
  `error_code` out-parameter convention: the typed result exists only on
  the success path, as in the source where the out-parameter is assigned
  only before `object_error::success` is returned.
* A failed C `assert` terminates the process; it is modelled by a
  distinguished abort value (`Option.none` / `AssertOr.assertFailed`),
  kept separate from the `error_code` channel.
-/

namespace CoffModel

/-- The two error kinds produced by the parser (`object_error`). -/
inductive ObjError where
  | unexpected_eof : ObjError
  | parse_failed : ObjError
deriving DecidableEq, Repr

instance {ε α : Type} [DecidableEq ε] [DecidableEq α] : DecidableEq (Except ε α) :=
  fun a b =>
    match a, b with
    | .ok x, .ok y =>
      if h : x = y then isTrue (by rw [h]) else isFalse (by intro hc; cases hc; exact h rfl)
    | .ok _, .error _ => isFalse (by intro hc; cases hc)
    | .error _, .ok _ => isFalse (by intro hc; cases hc)
    | .error e, .error f =>
      if h : e = f then isTrue (by rw [h]) else isFalse (by intro hc; cases hc; exact h rfl)

/-- The `uintptr_t` modulus: pointer arithmetic is 64-bit. -/
def UPTR : Nat := 18446744073709551616

/-- The `uint32_t` modulus. -/
def U32 : Nat := 4294967296

/-- Read one byte of the image (`uint8_t` access). -/
def read8 (buf : List Nat) (a : Nat) : Nat := buf.getD a 0 % 256

/-- The `support::ulittle16_t` read. -/
def read16LE (buf : List Nat) (a : Nat) : Nat :=
  read8 buf a + 256 * read8 buf (a + 1)

/-- The `support::ulittle32_t` read. -/
def read32LE (buf : List Nat) (a : Nat) : Nat :=
  read8 buf a + 256 * read8 buf (a + 1) + 65536 * read8 buf (a + 2) +
    16777216 * read8 buf (a + 3)

/-- The `support::ulittle64_t` read. -/
def read64LE (buf : List Nat) (a : Nat) : Nat :=
  read32LE buf a + U32 * read32LE buf (a + 4)

/-- The bytes of a NUL-terminated C string starting at address `a`
(`StringRef(const char*)` / `strlen`). -/
def readCString (buf : List Nat) (a : Nat) : List Nat :=
  ((buf.drop a).map (fun b => b % 256)).takeWhile (fun b => b != 0)

/-- The `MemoryBuffer`: start and one-past-the-end addresses of the mapped
image. `getObject` in the source consults only `getBufferEnd()`. -/
structure MemBuffer where
  bufStart : Nat
  bufEnd : Nat
deriving DecidableEq

/-- The `getObject` (COFFObjectFile.cpp lines 43–54): sets the typed view to
`Ptr` unless `Addr + Size` wraps `uintptr_t` arithmetic or runs past
`getBufferEnd()`; returns `unexpected_eof` on failure. -/
def getObject (M : MemBuffer) (addr size : Nat) : Except ObjError Nat :=
  let aps := (addr + size) % UPTR
  if aps < addr ∨ aps < size ∨ aps > M.bufEnd then
    .error .unexpected_eof
  else
    .ok addr

/-- The `coff_section` (COFF.h): the 40-byte section-table record. -/
structure CoffSection where
  Name : List Nat := []
  VirtualSize : Nat := 0
  VirtualAddress : Nat := 0
  SizeOfRawData : Nat := 0
  PointerToRawData : Nat := 0
  PointerToRelocations : Nat := 0
  PointerToLinenumbers : Nat := 0
  NumberOfRelocations : Nat := 0
  NumberOfLinenumbers : Nat := 0
  Characteristics : Nat := 0
deriving DecidableEq

/-- The `COFFObjectFile::getRvaPtr` (lines 449–462): linear scan of the section
table; a section matches when `VirtualAddress <= Addr < SectionEnd`, where
`SectionEnd` is the `uint32_t` sum `VirtualAddress + VirtualSize` (which
wraps mod 2^32); the result is `base + PointerToRawData + Offset`. -/
def getRvaPtr : List CoffSection → Nat → Nat → Except ObjError Nat
  | [], _, _ => .error .parse_failed
  | s :: rest, base, addr =>
    if s.VirtualAddress ≤ addr ∧ addr < (s.VirtualAddress + s.VirtualSize) % U32 then
      .ok (base + s.PointerToRawData + (addr - s.VirtualAddress))
    else
      getRvaPtr rest base addr

/-- Spec-side coverage predicate of C4, with the section end computed in
the source's `uint32_t` arithmetic. -/
def covers32 (s : CoffSection) (addr : Nat) : Bool :=
  decide (s.VirtualAddress ≤ addr ∧ addr < (s.VirtualAddress + s.VirtualSize) % U32)

/-- The `COFFObjectFile::getMethodSize` (lines 432–446): dispatch on the low two
bits of the first byte of the method body; `size` is the C++
`unsigned int` out-parameter, hence reduced mod 2^32 on the fat path. -/
def getMethodSize (buf : List Nat) (method : Nat) : Except ObjError Nat :=
  let b := read8 buf method
  if b % 4 = 2 then
    .ok (b / 4 + 1)
  else if b % 4 = 3 then
    .ok ((read32LE buf (method + 4) + 12) % U32)
  else
    .error .parse_failed

/-- The base-64 digit value of one name character, as computed by the
chained range tests in `decodeBase64StringEntry` (lines 64–77); `none`
models the `return true` failure for characters outside the alphabet. -/
def base64CharVal (c : Nat) : Option Nat :=
  if 65 ≤ c ∧ c ≤ 90 then some (c - 65)
  else if 97 ≤ c ∧ c ≤ 122 then some (c - 97 + 26)
  else if 48 ≤ c ∧ c ≤ 57 then some (c - 48 + 52)
  else if c = 43 then some 62
  else if c = 47 then some 63
  else none

/-- The accumulation loop of `decodeBase64StringEntry`:
`Value = Value * 64 + CharVal` over the string, left to right. -/
def decodeLoop : List Nat → Nat → Option Nat
  | [], value => some value
  | c :: rest, value =>
    match base64CharVal c with
    | none => none
    | some v => decodeLoop rest (value * 64 + v)

/-- The `decodeBase64StringEntry` (lines 58–88): strings longer than 6
characters fail, then the digit loop runs, then values that do not fit
`uint32_t` fail. -/
def decodeBase64StringEntry (s : List Nat) : Option Nat :=
  if s.length > 6 then none
  else
    match decodeLoop s 0 with
    | none => none
    | some value => if value > 4294967295 then none else some value

/-- Spec-side value of a digit string: most-significant digit first. -/
def specValue (s : List Nat) : Nat :=
  s.foldl (fun a c => a * 64 + (base64CharVal c).getD 0) 0

/-- Spec-side inverse digit map of the base-64 alphabet. -/
def valToByte (d : Nat) : Nat :=
  if d < 26 then 65 + d
  else if d < 52 then 97 + (d - 26)
  else if d < 62 then 48 + (d - 52)
  else if d = 62 then 43
  else 47

/-- Spec-side re-encoding of a value as `n` base-64 digits, most
significant first. -/
def encodeLen : Nat → Nat → List Nat
  | 0, _ => []
  | n + 1, v => valToByte (v / 64 ^ n % 64) :: encodeLen n v

/-- The digit loop of `StringRef::getAsInteger(10, uint32_t)`, used for
`/NNN` section names: decimal digits only, failing on overflow of the
32-bit result. -/
def parseDecimalLoop : List Nat → Nat → Option Nat
  | [], acc => some acc
  | c :: rest, acc =>
    if 48 ≤ c ∧ c ≤ 57 then
      let acc2 := acc * 10 + (c - 48)
      if acc2 ≥ U32 then none else parseDecimalLoop rest acc2
    else
      none

/-- The `StringRef::getAsInteger` on an empty string fails. -/
def parseDecimal (s : List Nat) : Option Nat :=
  if s.isEmpty then none else parseDecimalLoop s 0

/-- The `COFFObjectFile::getString` (lines 1038–1047): empty tables
(size ≤ 4) fail with `parse-failed`; offsets at or past the table size
fail with `unexpected-eof`; otherwise the NUL-terminated string at
`StringTable + Offset`. -/
def getString (buf : List Nat) (stAddr stSize off : Nat) : Except ObjError (List Nat) :=
  if stSize ≤ 4 then .error .parse_failed
  else if off ≥ stSize then .error .unexpected_eof
  else .ok (readCString buf (stAddr + off))

/-- The raw 8-byte section name (lines 1102–1108): NUL-terminated prefix if
byte 7 is NUL, otherwise all 8 bytes. -/
def sectionRawName (nm : List Nat) : List Nat :=
  if nm.getD 7 0 = 0 then nm.takeWhile (fun b => b != 0) else nm

/-- The `COFFObjectFile::getSectionName` (lines 1100–1126): names beginning
with `/` refer to the string table, by decimal offset (`/NNN`) or, after
`//`, by base-64 offset; a failed decode is `parse-failed`. -/
def getSectionName (buf : List Nat) (stAddr stSize : Nat) (nm : List Nat) :
    Except ObjError (List Nat) :=
  let name := sectionRawName nm
  if name.getD 0 0 = 47 then
    let offRes : Option Nat :=
      if name.getD 1 0 = 47 then decodeBase64StringEntry (name.drop 2)
      else parseDecimal (name.drop 1)
    match offRes with
    | none => .error .parse_failed
    | some off => getString buf stAddr stSize off
  else
    .ok name

/-- The `COFFObjectFile::initSymbolTablePtr` (lines 392–421): map the symbol
table (`sizeof(coff_symbol) = 18`), read the 4-byte string-table size that
follows it, map the string table at its declared size, then normalise
sizes below 4 to 4, and require a NUL in the last byte of any non-empty
table. Returns the string-table address and (normalised) size. -/
def initSymbolTablePtr (buf : List Nat) (ptrSym numSym : Nat) :
    Except ObjError (Nat × Nat) :=
  let M : MemBuffer := ⟨0, buf.length⟩
  match getObject M ptrSym (numSym * 18) with
  | .error e => .error e
  | .ok _ =>
    let stAddr := ptrSym + numSym * 18
    match getObject M stAddr 4 with
    | .error e => .error e
    | .ok _ =>
      let size := read32LE buf stAddr
      match getObject M stAddr size with
      | .error e => .error e
      | .ok _ =>
        let size2 := if size < 4 then 4 else size
        if size2 > 4 ∧ read8 buf (stAddr + size2 - 1) ≠ 0 then
          .error .parse_failed
        else
          .ok (stAddr, size2)

/-- The `data_directory` (COFF.h): one `(RVA, size)` pair. -/
structure DataDirectory where
  RelativeVirtualAddress : Nat := 0
  Size : Nat := 0
deriving DecidableEq

/-- The `COFFObjectFile::getDataDirectory` (lines 1009–1021): `parse-failed`
when no directory was mapped; the index test the source performs is
`Index > NumEnt` (`NumEnt = NumberOfRvaAndSize`), after which
`&DataDirectory[Index]` is returned; entries past the mapped array are
modelled by the `getD` default. -/
def getDataDirectory (dirOpt : Option (List DataDirectory)) (numEnt index : Nat) :
    Except ObjError DataDirectory :=
  match dirOpt with
  | none => .error .parse_failed
  | some ds =>
    if index > numEnt then .error .parse_failed
    else .ok (ds.getD index {})

/-- The `export_directory_table_entry` (COFF.h). -/
structure ExportDirectoryTableEntry where
  ExportFlags : Nat := 0
  TimeDateStamp : Nat := 0
  MajorVersion : Nat := 0
  MinorVersion : Nat := 0
  NameRVA : Nat := 0
  OrdinalBase : Nat := 0
  AddressTableEntries : Nat := 0
  NumberOfNamePointers : Nat := 0
  ExportAddressTableRVA : Nat := 0
  NamePointerRVA : Nat := 0
  OrdinalTableRVA : Nat := 0
deriving DecidableEq

/-- The scan loop of `ExportDirectoryEntryRef::getSymbolName`
(lines 1356–1368): walk `NumberOfNamePointers` 16-bit ordinal entries at
`o`; on the first entry equal to `index`, resolve the name-pointer table
and then the name RVA stored at the same position. -/
def exportNameLoop (buf : List Nat) (secs : List CoffSection)
    (et : ExportDirectoryTableEntry) (index o : Nat) :
    Nat → Nat → Except ObjError (List Nat)
  | _, 0 => .ok []
  | off, n + 1 =>
    if read16LE buf (o + 2 * off) = index then
      match getRvaPtr secs 0 et.NamePointerRVA with
      | .error e => .error e
      | .ok np =>
        match getRvaPtr secs 0 (read32LE buf (np + 4 * off)) with
        | .error e => .error e
        | .ok sp => .ok (readCString buf sp)
    else
      exportNameLoop buf secs et index o (off + 1) n

/-- The `ExportDirectoryEntryRef::getSymbolName` (lines 1347–1371). -/
def exportGetSymbolName (buf : List Nat) (secs : List CoffSection)
    (et : ExportDirectoryTableEntry) (index : Nat) : Except ObjError (List Nat) :=
  match getRvaPtr secs 0 et.OrdinalTableRVA with
  | .error e => .error e
  | .ok o => exportNameLoop buf secs et index o 0 et.NumberOfNamePointers

/-- The `clrtables::clrTablePtr` (COFF.h): per-table pointer and row count,
zero-initialised by the `calloc` in `initMetadataTablesSetup`. -/
structure ClrTablePtr where
  Module : Nat := 0
  ModuleSize : Nat := 0
  TypeRef : Nat := 0
  TypeRefSize : Nat := 0
  TypeDef : Nat := 0
  TypeDefSize : Nat := 0
  MethodDef : Nat := 0
  MethodDefSize : Nat := 0
  MemberRef : Nat := 0
  MemberRefSize : Nat := 0
  StandAloneSig : Nat := 0
  StandAloneSigSize : Nat := 0
  AssemblyRef : Nat := 0
  AssemblyRefSize : Nat := 0
deriving DecidableEq

/-- Running state of `setupTablePointers`: the table-pointer record, the
cursor `MetadataIntPtr`, and the row-array index `table`. -/
structure TPState where
  ptr : ClrTablePtr
  cur : Nat
  tbl : Nat
deriving DecidableEq

/-- One supported-table block of `setupTablePointers`: if bit `k` of
`Valid` is set, record the cursor and `rows[table]`, then advance the
cursor by `sizeof(record) * rows[table]` and `table` by one. Reads past
the end of the rows array (heap garbage in the source) default to 0. -/
def supStep (valid : Nat) (rows : List Nat) (k rsz : Nat)
    (set : ClrTablePtr → Nat → Nat → ClrTablePtr) (s : TPState) : TPState :=
  if valid.testBit k then
    ⟨set s.ptr s.cur (rows.getD s.tbl 0), s.cur + rsz * rows.getD s.tbl 0, s.tbl + 1⟩
  else s

/-- The `setupTablePointers` (lines 559–693), in source order: the seven
supported tables 0x00, 0x01, 0x02, 0x06, 0x0A, 0x11, 0x23 advance the
cursor; each of the 31 explicitly tested other table bits triggers
`assert(1==0)`, modelled as `none`. Record sizes are
`sizeof` of the packed structs in COFF.h: `module` 10, `typeRef` 6,
`typeDef` 14, `methodDef` 14, `memberRef` 6, `standAloneSig` 2,
`assemblyRef` 20. -/
def setupTablePointers (valid : Nat) (rows : List Nat) (p0 : Nat) : Option TPState :=
  let s := supStep valid rows 0 10
    (fun p a n => { p with Module := a, ModuleSize := n }) ⟨{}, p0, 0⟩
  let s := supStep valid rows 1 6
    (fun p a n => { p with TypeRef := a, TypeRefSize := n }) s
  let s := supStep valid rows 2 14
    (fun p a n => { p with TypeDef := a, TypeDefSize := n }) s
  if valid.testBit 4 then none else
  let s := supStep valid rows 6 14
    (fun p a n => { p with MethodDef := a, MethodDefSize := n }) s
  if valid.testBit 8 then none else
  if valid.testBit 9 then none else
  let s := supStep valid rows 10 6
    (fun p a n => { p with MemberRef := a, MemberRefSize := n }) s
  if valid.testBit 11 then none else
  if valid.testBit 12 then none else
  if valid.testBit 13 then none else
  if valid.testBit 14 then none else
  if valid.testBit 15 then none else
  if valid.testBit 16 then none else
  let s := supStep valid rows 17 2
    (fun p a n => { p with StandAloneSig := a, StandAloneSigSize := n }) s
  if valid.testBit 18 then none else
  if valid.testBit 20 then none else
  if valid.testBit 21 then none else
  if valid.testBit 23 then none else
  if valid.testBit 24 then none else
  if valid.testBit 25 then none else
  if valid.testBit 26 then none else
  if valid.testBit 27 then none else
  if valid.testBit 28 then none else
  if valid.testBit 29 then none else
  if valid.testBit 32 then none else
  if valid.testBit 33 then none else
  if valid.testBit 34 then none else
  let s := supStep valid rows 35 20
    (fun p a n => { p with AssemblyRef := a, AssemblyRefSize := n }) s
  if valid.testBit 36 then none else
  if valid.testBit 37 then none else
  if valid.testBit 38 then none else
  if valid.testBit 39 then none else
  if valid.testBit 40 then none else
  if valid.testBit 41 then none else
  if valid.testBit 42 then none else
  if valid.testBit 43 then none else
  if valid.testBit 44 then none else
  some s

/-- The `countbits` (lines 550–557): count the indices `0 ≤ i < 64` at which
`bitvector & (1 << i)` is non-zero. -/
def countbits (bv : Nat) : Nat :=
  (List.range 64).countP (fun i => bv &&& (1 <<< i) != 0)

/-- Spec-side population count, by binary recursion. -/
def popcountSpec (v : Nat) : Nat :=
  if h : v = 0 then 0
  else v % 2 + popcountSpec (v / 2)
decreasing_by exact Nat.div_lt_self (Nat.pos_of_ne_zero h) (by norm_num)

/-- The seven table ids the implementation supports. -/
def supportedIds : List Nat := [0, 1, 2, 6, 10, 17, 35]

/-- Bitmask of the supported table ids. -/
def supportedMask : Nat := 2 ^ 0 + 2 ^ 1 + 2 ^ 2 + 2 ^ 6 + 2 ^ 10 + 2 ^ 17 + 2 ^ 35

/-- Spec-side fixed record size of a supported table. -/
def recordSize (k : Nat) : Nat :=
  if k = 0 then 10
  else if k = 1 then 6
  else if k = 2 then 14
  else if k = 6 then 14
  else if k = 10 then 6
  else if k = 17 then 2
  else if k = 35 then 20
  else 0

/-- Rank of table `k` among the present supported tables (the position of
its row count in the rows array when only supported bits are set). -/
def specRank (valid k : Nat) : Nat :=
  ((supportedIds.filter (fun j => decide (j < k)))).countP valid.testBit

/-- Spec-side byte count of the packed records of the present supported
tables: sum of `rows[rank] * recordSize` over the present supported ids. -/
def specConsumed (valid : Nat) (rows : List Nat) : Nat :=
  (supportedIds.filter valid.testBit).foldl
    (fun acc k => acc + recordSize k * rows.getD (specRank valid k) 0) 0

/-- Rank of table `k` in the full `Valid` bitmap (`rank_of_k_in_Valid` of
the specification: the number of set bits below `k`). -/
def rankInValid (valid k : Nat) : Nat :=
  (List.range k).countP valid.testBit

/-- The byte count claimed by C8 read literally: sum of
`Rows[rank_of_k_in_Valid] * recordSize` over the present supported ids. -/
def claimConsumed (valid : Nat) (rows : List Nat) : Nat :=
  (supportedIds.filter valid.testBit).foldl
    (fun acc k => acc + recordSize k * rows.getD (rankInValid valid k) 0) 0

/-- Abort-or-value: `assertFailed` models a failed C `assert` terminating
the process before the function returns. -/
inductive AssertOr (α : Type) where
  | assertFailed : AssertOr α
  | value : α → AssertOr α
deriving DecidableEq

/-- The `clrstream_header` (COFF.h). -/
structure ClrStreamHeader where
  offset : Nat
  size : Nat
  name : List Nat
deriving DecidableEq

/-- The `clrmeta_tables_head` (COFF.h), as filled by
`initMetadataTablesSetup`; zero-initialised by `calloc`. -/
structure ClrMetaTablesHead where
  MajorVersion : Nat := 0
  MinorVersion : Nat := 0
  heapsizes : Nat := 0
  Valid : Nat := 0
  Sorted : Nat := 0
  Rows : List Nat := []
  tablePtr : ClrTablePtr := {}
deriving DecidableEq

/-- The `clrmeta_header` (COFF.h), as filled by `initMetadataPtr`; `Version`
holds the address of the in-place version string (a `char*` in the
source). -/
structure ClrMetaHeader where
  MetadataInitPtr : Nat
  Signature : Nat
  MajorRuntimeVersion : Nat
  MinorRuntimeVersion : Nat
  Reserved : Nat
  Length : Nat
  Version : Nat
  Flags : Nat
  Streams : Nat
  StreamHeaders : List ClrStreamHeader
deriving DecidableEq

/-- The full result of `initMetadataPtr`: metadata root plus the `#~`
tables header it chains into. -/
structure ClrMetaParse where
  header : ClrMetaHeader
  tables : ClrMetaTablesHead
deriving DecidableEq

/-- The `fixsize` (lines 542–548): round up to the next multiple of 4 (the
source increments in a loop until divisible by 4). -/
def fixsize (n : Nat) : Nat := n + (4 - n % 4) % 4

/-- The stream name `"#~"` as bytes. -/
def tildeStreamName : List Nat := [35, 126]

/-- The row-count read loop of `initMetadataTablesSetup` (lines 733–737):
`tables` consecutive `ulittle32_t` reads. -/
def readRows (buf : List Nat) : Nat → Nat → List Nat
  | _, 0 => []
  | cur, n + 1 => read32LE buf cur :: readRows buf (cur + 4) n

/-- The stream-header read loop of `initMetadataPtr` (lines 773–783): each
entry is offset (4), size (4), then a NUL-terminated name padded to a
4-byte boundary; returns the headers and the final cursor. -/
def readStreams (buf : List Nat) : Nat → Nat → List ClrStreamHeader × Nat
  | cur, 0 => ([], cur)
  | cur, n + 1 =>
    let off := read32LE buf cur
    let sz := read32LE buf (cur + 4)
    let nm := readCString buf (cur + 8)
    let cur2 := cur + 8 + fixsize (nm.length + 1)
    let rest := readStreams buf cur2 n
    (⟨off, sz, nm⟩ :: rest.1, rest.2)

/-- The `initMetadataTablesSetup` (lines 695–740): find the first stream named
`#~` (if none, or if its offset is 0, the zeroed tables head stands and
success is returned), then read the `#~` header fields, `popcount(Valid)`
row counts, and lay out the tables via `setupTablePointers`. The function
contains no bounds check and can only return `success`; the only abnormal
exit is the `assert` inside `setupTablePointers`. -/
def initMetadataTablesSetup (buf : List Nat) (MHeader : ClrMetaHeader) :
    AssertOr (Except ObjError ClrMetaTablesHead) :=
  let p0 := MHeader.MetadataInitPtr
  let p1 := match MHeader.StreamHeaders.find? (fun sh => sh.name == tildeStreamName) with
    | some sh => p0 + sh.offset
    | none => p0
  if p1 = p0 then
    .value (.ok {})
  else
    let cur := p1 + 4
    let major := read8 buf cur
    let cur := cur + 1
    let minor := read8 buf cur
    let cur := cur + 1
    let hs := read8 buf cur
    let cur := cur + 1 + 1
    let valid := read64LE buf cur
    let cur := cur + 8
    let sorted := read64LE buf cur
    let cur := cur + 8
    let tables := countbits valid
    let rows := readRows buf cur tables
    let cur := cur + 4 * tables
    match setupTablePointers valid rows cur with
    | none => .assertFailed
    | some s => .value (.ok ⟨major, minor, hs, valid, sorted, rows, s.ptr⟩)

/-- The `initMetadataPtr` (lines 744–787): cursor-driven parse of the metadata
root. The signature dword is stored without any check; `Length` is read as
16 bits but the cursor advances by `sizeof(ulittle32_t Length) = 4`; the
version string occupies `fixsize(Length)` bytes; then flags, stream count
and the stream directory. The error code returned by
`initMetadataTablesSetup` is discarded (the third match arm is
unreachable since the callee never produces an error code) and `success`
is always returned. -/
def initMetadataPtr (buf : List Nat) (p : Nat) :
    AssertOr (Except ObjError ClrMetaParse) :=
  let signature := read32LE buf p
  let cur := p + 4 + 2 + 2 + 4
  let length := read16LE buf cur
  let cur := cur + 4
  let strsize := fixsize length
  let version := cur
  let cur := cur + strsize
  let flags := read16LE buf cur
  let cur := cur + 2
  let streams := read16LE buf cur
  let cur := cur + 2
  let shs := readStreams buf cur streams
  let hdr : ClrMetaHeader := ⟨p, signature, 1, 1, 0, length, version, flags, streams, shs.1⟩
  match initMetadataTablesSetup buf hdr with
  | .assertFailed => .assertFailed
  | .value (.ok t) => .value (.ok ⟨hdr, t⟩)
  | .value (.error _) => .value (.ok ⟨hdr, {}⟩)

/-- C1 counterexample: with a buffer mapped at [100, 200), a pointer at
address 50 (strictly below the buffer start) with size 10 passes every
check of `getObject` and yields a typed view, so the claim that a view is
produced only if the pointer lies inside the buffer is false. -/
theorem getObject_below_buffer_accepted :
    getObject ⟨100, 200⟩ 50 10 = .ok 50 ∧ ¬ (100 ≤ 50) := by
  exact ⟨rfl, by decide⟩

/-- C1 (amended): `getObject` checks only the upper bound. For in-range
`uintptr_t` inputs it produces the typed view exactly when
`pointer + size` (exact arithmetic, hence also no 64-bit wrap) stays
within the buffer end, and it returns `unexpected-eof` (producing no
view) whenever `pointer + size` wraps or exceeds the buffer end; the
buffer start is never consulted, so a pointer below the buffer is
accepted whenever `pointer + size ≤ bufferEnd`. -/
theorem getObject_range_check (M : MemBuffer) (addr size : Nat)
    (ha : addr < UPTR) (hs : size < UPTR) (hb : M.bufEnd < UPTR) :
    (addr + size ≤ M.bufEnd → getObject M addr size = .ok addr) ∧
    (M.bufEnd < addr + size → getObject M addr size = .error .unexpected_eof) := by
  simp only [UPTR] at ha hs hb
  constructor
  · intro h
    have hc : ¬ ((addr + size) % UPTR < addr ∨ (addr + size) % UPTR < size ∨
        (addr + size) % UPTR > M.bufEnd) := by
      simp only [UPTR]
      omega
    simp only [getObject, hc, if_false]
  · intro h
    have hc : (addr + size) % UPTR < addr ∨ (addr + size) % UPTR < size ∨
        (addr + size) % UPTR > M.bufEnd := by
      simp only [UPTR]
      omega
    simp only [getObject, hc, if_true]

/-- C1 witness: a concrete in-bounds success and a concrete overrun. -/
theorem getObject_range_check_witness :
    (getObject ⟨0, 100⟩ 20 30 = .ok 20) ∧
    (getObject ⟨0, 100⟩ 90 30 = .error .unexpected_eof) :=
  ⟨(getObject_range_check ⟨0, 100⟩ 20 30 (by decide) (by decide) (by decide)).1 (by decide),
   (getObject_range_check ⟨0, 100⟩ 90 30 (by decide) (by decide) (by decide)).2 (by decide)⟩

/-- C4 counterexample: a section with `VirtualAddress = 2^32 - 1` and
`VirtualSize = 2` covers RVA `2^32 - 1` in exact arithmetic
(`[VirtualAddress, VirtualAddress + VirtualSize)`), yet `getRvaPtr` fails
with `parse-failed` because the section end wraps to 1 in `uint32_t`. -/
theorem getRvaPtr_wrapped_section_missed :
    (4294967295 ≤ 4294967295 ∧
      (4294967295 : Nat) <
        ({ VirtualAddress := 4294967295, VirtualSize := 2 } : CoffSection).VirtualAddress +
        ({ VirtualAddress := 4294967295, VirtualSize := 2 } : CoffSection).VirtualSize) ∧
    getRvaPtr [{ VirtualAddress := 4294967295, VirtualSize := 2 }] 0 4294967295 =
      .error .parse_failed := by
  exact ⟨by decide, rfl⟩

/-- C4 (amended): `getRvaPtr` scans sections in order and the first section
whose half-open interval `[VirtualAddress, (VirtualAddress + VirtualSize) mod 2^32)`
contains the RVA determines the result
`base + PointerToRawData + (RVA - VirtualAddress)`; if no section covers
the RVA in this 32-bit sense, the call fails with `parse-failed`. -/
theorem getRvaPtr_first_covering_section (secs : List CoffSection) (base addr : Nat) :
    getRvaPtr secs base addr =
      match secs.find? (fun s => covers32 s addr) with
      | some s => .ok (base + s.PointerToRawData + (addr - s.VirtualAddress))
      | none => .error .parse_failed := by
  induction secs with
  | nil => rfl
  | cons s rest ih =>
    by_cases h : s.VirtualAddress ≤ addr ∧ addr < (s.VirtualAddress + s.VirtualSize) % U32
    · simp [getRvaPtr, List.find?, covers32, h]
    · simp [getRvaPtr, List.find?, covers32, h, ih]

/-- C3: tiny methods (low bits `0b10`) give `(byte >> 2) + 1`; fat methods
(low bits `0b11`) give the little-endian dword at offset 4 plus 12 (as
`unsigned int`); low bits `0b00` or `0b01` fail with `parse-failed`. -/
theorem getMethodSize_spec (buf : List Nat) (m : Nat) :
    (read8 buf m % 4 = 2 → getMethodSize buf m = .ok (read8 buf m / 4 + 1)) ∧
    (read8 buf m % 4 = 3 →
      getMethodSize buf m = .ok ((read32LE buf (m + 4) + 12) % U32)) ∧
    (read8 buf m % 4 = 0 ∨ read8 buf m % 4 = 1 →
      getMethodSize buf m = .error .parse_failed) := by
  refine ⟨fun h => ?_, fun h => ?_, fun h => ?_⟩
  · simp [getMethodSize, h]
  · simp [getMethodSize, h]
  · rcases h with h | h <;> simp [getMethodSize, h]

/-- C3 witness: byte `0x12` is a tiny header of size 5; a fat header whose
dword at offset 4 is `0x2C` has size 56; byte `0x01` fails. -/
theorem getMethodSize_spec_witness :
    getMethodSize [18] 0 = .ok 5 ∧
    getMethodSize [51, 0, 0, 0, 44, 0, 0, 0] 0 = .ok 56 ∧
    getMethodSize [1] 0 = .error .parse_failed := by
  refine ⟨?_, ?_, ?_⟩
  · have h := (getMethodSize_spec [18] 0).1 (by decide)
    rw [h]
    decide
  · have h := (getMethodSize_spec [51, 0, 0, 0, 44, 0, 0, 0] 0).2.1 (by decide)
    rw [h]
    decide
  · exact (getMethodSize_spec [1] 0).2.2 (by decide)

theorem base64CharVal_lt (c d : Nat) (h : base64CharVal c = some d) : d < 64 := by
  simp only [base64CharVal] at h
  split_ifs at h <;> simp_all <;> omega

theorem valToByte_charVal (c d : Nat) (h : base64CharVal c = some d) :
    valToByte d = c := by
  simp only [base64CharVal] at h
  split_ifs at h <;> simp_all [valToByte] <;> split_ifs <;> omega

theorem decodeLoop_eq_foldl (s : List Nat) :
    (∀ c ∈ s, (base64CharVal c).isSome) → ∀ acc : Nat,
    decodeLoop s acc =
      some (s.foldl (fun a c => a * 64 + (base64CharVal c).getD 0) acc) := by
  induction s with
  | nil => intro _ acc; rfl
  | cons c rest ih =>
    intro hv acc
    rcases Option.isSome_iff_exists.mp (hv c (List.mem_cons_self c rest)) with ⟨d, hd⟩
    simp only [decodeLoop, hd, List.foldl_cons, Option.getD_some]
    exact ih (fun x hx => hv x (List.mem_cons_of_mem c hx)) (acc * 64 + d)

theorem specValue_foldl_shift (s : List Nat) :
    ∀ acc : Nat,
      s.foldl (fun a c => a * 64 + (base64CharVal c).getD 0) acc =
      acc * 64 ^ s.length +
        s.foldl (fun a c => a * 64 + (base64CharVal c).getD 0) 0 := by
  induction s with
  | nil => intro acc; simp
  | cons c rest ih =>
    intro acc
    simp only [List.foldl_cons, List.length_cons]
    rw [ih (acc * 64 + (base64CharVal c).getD 0),
      ih ((0 : Nat) * 64 + (base64CharVal c).getD 0)]
    ring

theorem specValue_cons (c : Nat) (rest : List Nat) (d : Nat)
    (hd : base64CharVal c = some d) :
    specValue (c :: rest) = d * 64 ^ rest.length + specValue rest := by
  show List.foldl (fun a x => a * 64 + (base64CharVal x).getD 0)
      ((0 : Nat) * 64 + (base64CharVal c).getD 0) rest = _
  rw [specValue_foldl_shift rest, hd]
  simp [specValue]

theorem specValue_lt (s : List Nat) (hv : ∀ c ∈ s, (base64CharVal c).isSome) :
    specValue s < 64 ^ s.length := by
  induction s with
  | nil => simp [specValue]
  | cons c rest ih =>
    rcases Option.isSome_iff_exists.mp (hv c (List.mem_cons_self c rest)) with ⟨d, hd⟩
    have hrest := ih (fun x hx => hv x (List.mem_cons_of_mem c hx))
    have hd64 : d < 64 := base64CharVal_lt c d hd
    rw [specValue_cons c rest d hd, List.length_cons, pow_succ]
    calc d * 64 ^ rest.length + specValue rest
        < d * 64 ^ rest.length + 64 ^ rest.length := by omega
      _ = (d + 1) * 64 ^ rest.length := by ring
      _ ≤ 64 * 64 ^ rest.length := Nat.mul_le_mul_right _ (by omega)
      _ = 64 ^ rest.length * 64 := by ring

theorem encodeLen_shift (n : Nat) : ∀ c r : Nat,
    encodeLen n (c * 64 ^ n + r) = encodeLen n r := by
  induction n with
  | zero => intro c r; rfl
  | succ n ih =>
    intro c r
    have hpos : 0 < 64 ^ n := Nat.pos_pow_of_pos n (by norm_num)
    have h2 : c * 64 ^ (n + 1) + r = (c * 64 + r / 64 ^ n) * 64 ^ n + r % 64 ^ n := by
      have h3 := Nat.div_add_mod r (64 ^ n)
      calc c * 64 ^ (n + 1) + r
          = (c * 64) * 64 ^ n + (64 ^ n * (r / 64 ^ n) + r % 64 ^ n) := by rw [h3]; ring
        _ = (c * 64 + r / 64 ^ n) * 64 ^ n + r % 64 ^ n := by ring
    have hd : (c * 64 ^ (n + 1) + r) / 64 ^ n % 64 = r / 64 ^ n % 64 := by
      have h1 : c * 64 ^ (n + 1) + r = r + (64 * c) * 64 ^ n := by ring
      rw [h1, Nat.add_mul_div_right _ _ hpos]
      omega
    have hr : encodeLen n r = encodeLen n (r % 64 ^ n) := by
      conv_lhs => rw [show r = r / 64 ^ n * 64 ^ n + r % 64 ^ n from
        (Nat.div_add_mod' r (64 ^ n)).symm]
      exact ih (r / 64 ^ n) (r % 64 ^ n)
    show valToByte ((c * 64 ^ (n + 1) + r) / 64 ^ n % 64) ::
        encodeLen n (c * 64 ^ (n + 1) + r) =
      valToByte (r / 64 ^ n % 64) :: encodeLen n r
    rw [hd, h2, ih (c * 64 + r / 64 ^ n) (r % 64 ^ n), hr]

theorem encode_decode_roundtrip (s : List Nat)
    (hv : ∀ c ∈ s, (base64CharVal c).isSome) :
    encodeLen s.length (specValue s) = s := by
  induction s with
  | nil => rfl
  | cons c rest ih =>
    rcases Option.isSome_iff_exists.mp (hv c (List.mem_cons_self c rest)) with ⟨d, hd⟩
    have hrest : ∀ x ∈ rest, (base64CharVal x).isSome :=
      fun x hx => hv x (List.mem_cons_of_mem c hx)
    have hpos : 0 < 64 ^ rest.length := Nat.pos_pow_of_pos _ (by norm_num)
    have hsv := specValue_cons c rest d hd
    have hlt : specValue rest < 64 ^ rest.length := specValue_lt rest hrest
    have hdig : specValue (c :: rest) / 64 ^ rest.length % 64 = d := by
      rw [hsv, Nat.add_comm, Nat.add_mul_div_right _ _ hpos,
        Nat.div_eq_of_lt hlt, Nat.zero_add,
        Nat.mod_eq_of_lt (base64CharVal_lt c d hd)]
    show valToByte (specValue (c :: rest) / 64 ^ rest.length % 64) ::
        encodeLen rest.length (specValue (c :: rest)) = c :: rest
    rw [hdig, valToByte_charVal c d hd, hsv,
      encodeLen_shift rest.length d (specValue rest), ih hrest]

theorem decodeLoop_invalid (s : List Nat) :
    (∃ c ∈ s, base64CharVal c = none) → ∀ acc : Nat, decodeLoop s acc = none := by
  induction s with
  | nil => rintro ⟨c, hc, _⟩; cases hc
  | cons c rest ih =>
    rintro ⟨x, hx, hxn⟩ acc
    rcases hcv : base64CharVal c with _ | v
    · simp [decodeLoop, hcv]
    · rcases List.mem_cons.mp hx with rfl | hx2
      · rw [hcv] at hxn; cases hxn
      · simp only [decodeLoop, hcv]
        exact ih ⟨x, hx2, hxn⟩ _

/-- C5: base-64 section-name decoding. A string of at most 6 alphabet
characters whose most-significant-digit-first value fits 32 bits decodes
to exactly that value, and re-encoding the value at the same length is
the identity; strings longer than 6 characters, strings with a character
outside the alphabet, and values outside 32 bits all fail, and a failed
decode of a `//`-prefixed section name makes `getSectionName` fail with
`parse-failed`. -/
theorem decodeBase64_spec (s : List Nat) :
    (s.length ≤ 6 → (∀ c ∈ s, (base64CharVal c).isSome) →
      specValue s ≤ 4294967295 →
      decodeBase64StringEntry s = some (specValue s) ∧
      encodeLen s.length (specValue s) = s) ∧
    (s.length > 6 → decodeBase64StringEntry s = none) ∧
    ((∃ c ∈ s, base64CharVal c = none) → decodeBase64StringEntry s = none) ∧
    ((∀ c ∈ s, (base64CharVal c).isSome) → 4294967295 < specValue s →
      decodeBase64StringEntry s = none) ∧
    (∀ buf stAddr stSize nm,
      (sectionRawName nm).getD 0 0 = 47 → (sectionRawName nm).getD 1 0 = 47 →
      decodeBase64StringEntry ((sectionRawName nm).drop 2) = none →
      getSectionName buf stAddr stSize nm = .error .parse_failed) := by
  refine ⟨fun h6 hv hb => ⟨?_, encode_decode_roundtrip s hv⟩,
    fun h6 => ?_, fun hinv => ?_, fun hv hb => ?_,
    fun buf stAddr stSize nm h0 h1 hdec => ?_⟩
  · simp only [decodeBase64StringEntry, decodeLoop_eq_foldl s hv 0]
    rw [if_neg (by omega)]
    show (if specValue s > 4294967295 then none else some (specValue s)) = _
    rw [if_neg (by omega)]
  · simp [decodeBase64StringEntry, h6]
  · by_cases hl : s.length > 6 <;>
      simp [decodeBase64StringEntry, hl, decodeLoop_invalid s hinv 0]
  · by_cases hl : s.length > 6
    · simp [decodeBase64StringEntry, hl]
    · simp only [decodeBase64StringEntry, decodeLoop_eq_foldl s hv 0]
      rw [if_neg hl]
      show (if specValue s > 4294967295 then none else some (specValue s)) = _
      rw [if_pos (by omega)]
  · simp only [getSectionName]
    rw [if_pos h0, if_pos h1, hdec]

/-- C5 witness: `"AAAAAB"` decodes to 1 and re-encodes to itself; 7
characters fail; `'!'` is outside the alphabet; `"QAAAAA"` exceeds 32
bits; a section named `"//!AAAAA"` makes `getSectionName` fail. -/
theorem decodeBase64_spec_witness :
    decodeBase64StringEntry [65, 65, 65, 65, 65, 66] = some 1 ∧
    encodeLen 6 1 = [65, 65, 65, 65, 65, 66] ∧
    decodeBase64StringEntry [65, 65, 65, 65, 65, 65, 65] = none ∧
    decodeBase64StringEntry [33, 65] = none ∧
    decodeBase64StringEntry [81, 65, 65, 65, 65, 65] = none ∧
    getSectionName [] 0 0 [47, 47, 33, 0, 0, 0, 0, 0] = .error .parse_failed := by
  have h1 := (decodeBase64_spec [65, 65, 65, 65, 65, 66]).1
    (by decide) (by decide) (by decide)
  refine ⟨?_, ?_, ?_, ?_, ?_, ?_⟩
  · have h := h1.1
    rw [show specValue [65, 65, 65, 65, 65, 66] = 1 from by decide] at h
    exact h
  · have h := h1.2
    rw [show specValue [65, 65, 65, 65, 65, 66] = 1 from by decide] at h
    simpa using h
  · exact (decodeBase64_spec [65, 65, 65, 65, 65, 65, 65]).2.1 (by decide)
  · exact (decodeBase64_spec [33, 65]).2.2.1 ⟨33, by decide, by decide⟩
  · exact (decodeBase64_spec [81, 65, 65, 65, 65, 65]).2.2.2.1 (by decide) (by decide)
  · exact (decodeBase64_spec [47, 47, 33, 0, 0, 0, 0, 0]).2.2.2.2 [] 0 0
      [47, 47, 33, 0, 0, 0, 0, 0] (by decide) (by decide) (by decide)

/-- C6 (code evaluated at the failing input): with a mapped 16-entry data
directory, index 15 succeeds, index 17 fails, and no directory fails —
but index 16 (the first out-of-range index, `Index == NumberOfRvaAndSize`)
also succeeds, returning the entry one past the mapped array, against the
spec (and the source's own comment). -/
theorem getDataDirectory_off_by_one :
    getDataDirectory (some (List.replicate 16 {})) 16 15 = .ok {} ∧
    getDataDirectory (some (List.replicate 16 {})) 16 16 = .ok {} ∧
    getDataDirectory (some (List.replicate 16 {})) 16 17 = .error .parse_failed ∧
    getDataDirectory none 16 0 = .error .parse_failed := by
  exact ⟨rfl, rfl, rfl, rfl⟩

theorem getObject_ok_of_le (M : MemBuffer) (addr size : Nat)
    (hb : M.bufEnd < UPTR) (h : addr + size ≤ M.bufEnd) :
    getObject M addr size = .ok addr := by
  have hc : ¬ ((addr + size) % UPTR < addr ∨ (addr + size) % UPTR < size ∨
      (addr + size) % UPTR > M.bufEnd) := by
    simp only [UPTR] at *
    omega
  simp only [getObject, hc, if_false]

/-- C7: at initialisation a declared string-table size below 4 is
normalised to 4; a size above 4 whose table does not end in NUL aborts
with `parse-failed`; afterwards `getString` on an empty table
(size ≤ 4) fails with `parse-failed` and, on a non-empty table, an offset
at or past the size fails with `unexpected-eof`. -/
theorem stringTable_contract (buf : List Nat) (ptrSym numSym : Nat)
    (h1 : ptrSym + numSym * 18 ≤ buf.length)
    (h2 : ptrSym + numSym * 18 + 4 ≤ buf.length)
    (h3 : ptrSym + numSym * 18 + read32LE buf (ptrSym + numSym * 18) ≤ buf.length)
    (hlen : buf.length < UPTR) :
    (read32LE buf (ptrSym + numSym * 18) < 4 →
      initSymbolTablePtr buf ptrSym numSym = .ok (ptrSym + numSym * 18, 4)) ∧
    (4 < read32LE buf (ptrSym + numSym * 18) →
      read8 buf (ptrSym + numSym * 18 + read32LE buf (ptrSym + numSym * 18) - 1) ≠ 0 →
      initSymbolTablePtr buf ptrSym numSym = .error .parse_failed) ∧
    (∀ stA sz off, sz ≤ 4 → getString buf stA sz off = .error .parse_failed) ∧
    (∀ stA sz off, 4 < sz → sz ≤ off →
      getString buf stA sz off = .error .unexpected_eof) := by
  have e1 := getObject_ok_of_le ⟨0, buf.length⟩ ptrSym (numSym * 18) hlen h1
  have e2 := getObject_ok_of_le ⟨0, buf.length⟩ (ptrSym + numSym * 18) 4 hlen h2
  have e3 := getObject_ok_of_le ⟨0, buf.length⟩ (ptrSym + numSym * 18)
    (read32LE buf (ptrSym + numSym * 18)) hlen h3
  refine ⟨fun hsz => ?_, fun hsz hnz => ?_,
    fun stA sz off hsz => ?_, fun stA sz off h4 hoff => ?_⟩
  · simp only [initSymbolTablePtr, e1, e2, e3]
    rw [if_pos hsz]
    norm_num
  · simp only [initSymbolTablePtr, e1, e2, e3]
    rw [show (if read32LE buf (ptrSym + numSym * 18) < 4 then 4
        else read32LE buf (ptrSym + numSym * 18)) =
        read32LE buf (ptrSym + numSym * 18) from if_neg (by omega)]
    rw [if_pos ⟨hsz, hnz⟩]
  · simp [getString, hsz]
  · simp only [getString]
    rw [if_neg (by omega), if_pos (by omega)]

/-- C7 witness: a zero declared size is normalised to 4; a declared size 6
whose last byte is 1 fails `parse-failed`; `getString` on an empty table
fails `parse-failed`; offset 7 in a table of size 6 fails
`unexpected-eof`. -/
theorem stringTable_contract_witness :
    initSymbolTablePtr [0, 0, 0, 0] 0 0 = .ok (0, 4) ∧
    initSymbolTablePtr [6, 0, 0, 0, 0, 1] 0 0 = .error .parse_failed ∧
    getString [0, 0, 0, 0] 0 4 0 = .error .parse_failed ∧
    getString [0, 0, 0, 0] 0 6 7 = .error .unexpected_eof := by
  refine ⟨?_, ?_, ?_, ?_⟩
  · exact (stringTable_contract [0, 0, 0, 0] 0 0 (by decide) (by decide)
      (by decide) (by decide)).1 (by decide)
  · exact (stringTable_contract [6, 0, 0, 0, 0, 1] 0 0 (by decide) (by decide)
      (by decide) (by decide)).2.1 (by decide) (by decide)
  · exact (stringTable_contract [0, 0, 0, 0] 0 0 (by decide) (by decide)
      (by decide) (by decide)).2.2.1 0 4 0 (by decide)
  · exact (stringTable_contract [0, 0, 0, 0] 0 0 (by decide) (by decide)
      (by decide) (by decide)).2.2.2 0 6 7 (by decide) (by decide)

/-- C2 counterexample: `Valid = 8` sets bit 0x03, which is not one of the
seven supported tables, yet `setupTablePointers` runs to completion
without any assertion (bit 0x03 is never tested by the source). -/
theorem setupTablePointers_bit3_no_assert :
    Nat.testBit 8 3 = true ∧ 3 ∉ supportedIds ∧
    setupTablePointers 8 [] 0 = some ⟨{}, 0, 0⟩ := by
  exact ⟨by decide, by decide, rfl⟩

theorem ifNone_iff {α : Type} (c : Prop) [Decidable c] (x : Option α) :
    ((if c then none else x) = none) ↔ (c ∨ x = none) := by
  split_ifs with h <;> simp [h]

/-- C2 (amended): `setupTablePointers` triggers the fatal assertion exactly
when one of the 31 table bits it explicitly tests is set — 0x04, 0x08,
0x09, 0x0B–0x10, 0x12, 0x14, 0x15, 0x17–0x1D, 0x20–0x22, 0x24–0x2C. The
unsupported bits 0x03, 0x05, 0x07, 0x13, 0x16, 0x1E, 0x1F and 0x2D–0x3F
are never tested and are silently ignored. -/
theorem setupTablePointers_assert_iff (valid : Nat) (rows : List Nat) (p0 : Nat) :
    setupTablePointers valid rows p0 = none ↔
      (valid.testBit 4 = true ∨ valid.testBit 8 = true ∨ valid.testBit 9 = true ∨
       valid.testBit 11 = true ∨ valid.testBit 12 = true ∨ valid.testBit 13 = true ∨
       valid.testBit 14 = true ∨ valid.testBit 15 = true ∨ valid.testBit 16 = true ∨
       valid.testBit 18 = true ∨ valid.testBit 20 = true ∨ valid.testBit 21 = true ∨
       valid.testBit 23 = true ∨ valid.testBit 24 = true ∨ valid.testBit 25 = true ∨
       valid.testBit 26 = true ∨ valid.testBit 27 = true ∨ valid.testBit 28 = true ∨
       valid.testBit 29 = true ∨ valid.testBit 32 = true ∨ valid.testBit 33 = true ∨
       valid.testBit 34 = true ∨ valid.testBit 36 = true ∨ valid.testBit 37 = true ∨
       valid.testBit 38 = true ∨ valid.testBit 39 = true ∨ valid.testBit 40 = true ∨
       valid.testBit 41 = true ∨ valid.testBit 42 = true ∨ valid.testBit 43 = true ∨
       valid.testBit 44 = true) := by
  simp only [setupTablePointers, ifNone_iff]
  simp

theorem readRows_length (buf : List Nat) : ∀ cur n, (readRows buf cur n).length = n := by
  intro cur n
  induction n generalizing cur with
  | zero => rfl
  | succ n ih => simp [readRows, ih]

theorem read8_lt (buf : List Nat) (a : Nat) : read8 buf a < 256 :=
  Nat.mod_lt _ (by norm_num)

theorem read32_lt (buf : List Nat) (a : Nat) : read32LE buf a < U32 := by
  have h0 := read8_lt buf a
  have h1 := read8_lt buf (a + 1)
  have h2 := read8_lt buf (a + 2)
  have h3 := read8_lt buf (a + 3)
  simp only [read32LE, U32]
  omega

theorem read64_lt (buf : List Nat) (a : Nat) : read64LE buf a < 2 ^ 64 := by
  have h0 := read32_lt buf a
  have h1 := read32_lt buf (a + 4)
  simp only [read64LE, U32] at h0 h1 ⊢
  have : (2 : Nat) ^ 64 = 18446744073709551616 := by norm_num
  omega

theorem popcountSpec_zero : popcountSpec 0 = 0 := by
  rw [popcountSpec]
  simp

theorem popcountSpec_rec (v : Nat) : popcountSpec v = v % 2 + popcountSpec (v / 2) := by
  by_cases h : v = 0
  · subst h
    rw [popcountSpec_zero]
  · rw [popcountSpec]
    simp [h]

theorem countP_testBit (k : Nat) : ∀ v : Nat, v < 2 ^ k →
    (List.range k).countP (fun i => v.testBit i) = popcountSpec v := by
  induction k with
  | zero =>
    intro v hv
    have hz : v = 0 := by omega
    subst hz
    rw [popcountSpec_zero]
    rfl
  | succ k ih =>
    intro v hv
    rw [List.range_succ_eq_map, List.countP_cons, List.countP_map]
    have hdiv : v / 2 < 2 ^ k := by
      rw [pow_succ] at hv
      omega
    have hrec : (List.range k).countP ((fun i => v.testBit i) ∘ Nat.succ) =
        (List.range k).countP (fun i => (v / 2).testBit i) := by
      apply List.countP_congr
      intro x _
      simp [Function.comp, Nat.testBit_succ]
    rw [hrec, ih (v / 2) hdiv, popcountSpec_rec v]
    rcases Nat.mod_two_eq_zero_or_one v with h | h <;>
      (simp [Nat.testBit_zero, h]; try omega)

theorem countbits_eq_popcount (v : Nat) (hv : v < 2 ^ 64) :
    countbits v = popcountSpec v := by
  have hpt : countbits v = (List.range 64).countP (fun i => v.testBit i) := by
    unfold countbits
    apply List.countP_congr
    intro i _
    rw [Nat.shiftLeft_eq, one_mul, Nat.and_two_pow]
    cases h : v.testBit i <;> simp [h]
  rw [hpt, countP_testBit 64 v hv]

theorem testBit_false_of_mask (valid k : Nat) (h : valid &&& supportedMask = valid)
    (hk : Nat.testBit supportedMask k = false) : valid.testBit k = false := by
  have h2 : (valid &&& supportedMask).testBit k = valid.testBit k := by rw [h]
  rw [Nat.testBit_and, hk, Bool.and_false] at h2
  exact h2.symm

/-- C8 counterexample: `Valid = 73` (bits 0x00, 0x03, 0x06) with row array
`[1, 2, 3]`. The untested unsupported bit 0x03 occupies rank 1 of the row
array, so `setupTablePointers` consumes `10*1 + 14*2 = 38` bytes, while
the claim's sum over the supported present tables with the rank taken in
`Valid` — `10*Rows[0] + 14*Rows[2] = 10 + 42` — is 52. -/
theorem metadataTables_consumed_mismatch :
    ((setupTablePointers 73 [1, 2, 3] 0).map (fun s => s.cur) = some 38) ∧
    claimConsumed 73 [1, 2, 3] = 52 ∧ (38 : Nat) ≠ 52 := by
  exact ⟨rfl, by decide, by decide⟩

set_option maxHeartbeats 3200000 in
/-- C8 (amended): when every set bit of `Valid` lies among the seven
supported tables, `setupTablePointers` completes without assertion and
the packed records consumed after the row array are exactly the sum over
the present supported tables of row-count times fixed record size
(Module 10, TypeRef 6, TypeDef 14, MethodDef 14, MemberRef 6,
StandAloneSig 2, AssemblyRef 20 bytes), the row count of a table being
the rows entry at its rank among the present supported tables (its rank
in `Valid`, as no other bits are set). Moreover the number of 32-bit row
counts read by `initMetadataTablesSetup` always equals the exact
population count of the 64-bit `Valid` bitmap, `countbits` being a
correct popcount. -/
theorem metadataTables_layout (buf : List Nat) (hdr : ClrMetaHeader)
    (valid : Nat) (rows : List Nat) (p0 : Nat)
    (hv : valid &&& supportedMask = valid) :
    ((setupTablePointers valid rows p0).map (fun s => s.cur) =
      some (p0 + specConsumed valid rows)) ∧
    (∀ th, initMetadataTablesSetup buf hdr = .value (.ok th) →
      th.Rows.length = popcountSpec th.Valid) := by
  constructor
  · have n4 := testBit_false_of_mask valid 4 hv (by decide)
    have n8 := testBit_false_of_mask valid 8 hv (by decide)
    have n9 := testBit_false_of_mask valid 9 hv (by decide)
    have n11 := testBit_false_of_mask valid 11 hv (by decide)
    have n12 := testBit_false_of_mask valid 12 hv (by decide)
    have n13 := testBit_false_of_mask valid 13 hv (by decide)
    have n14 := testBit_false_of_mask valid 14 hv (by decide)
    have n15 := testBit_false_of_mask valid 15 hv (by decide)
    have n16 := testBit_false_of_mask valid 16 hv (by decide)
    have n18 := testBit_false_of_mask valid 18 hv (by decide)
    have n20 := testBit_false_of_mask valid 20 hv (by decide)
    have n21 := testBit_false_of_mask valid 21 hv (by decide)
    have n23 := testBit_false_of_mask valid 23 hv (by decide)
    have n24 := testBit_false_of_mask valid 24 hv (by decide)
    have n25 := testBit_false_of_mask valid 25 hv (by decide)
    have n26 := testBit_false_of_mask valid 26 hv (by decide)
    have n27 := testBit_false_of_mask valid 27 hv (by decide)
    have n28 := testBit_false_of_mask valid 28 hv (by decide)
    have n29 := testBit_false_of_mask valid 29 hv (by decide)
    have n32 := testBit_false_of_mask valid 32 hv (by decide)
    have n33 := testBit_false_of_mask valid 33 hv (by decide)
    have n34 := testBit_false_of_mask valid 34 hv (by decide)
    have n36 := testBit_false_of_mask valid 36 hv (by decide)
    have n37 := testBit_false_of_mask valid 37 hv (by decide)
    have n38 := testBit_false_of_mask valid 38 hv (by decide)
    have n39 := testBit_false_of_mask valid 39 hv (by decide)
    have n40 := testBit_false_of_mask valid 40 hv (by decide)
    have n41 := testBit_false_of_mask valid 41 hv (by decide)
    have n42 := testBit_false_of_mask valid 42 hv (by decide)
    have n43 := testBit_false_of_mask valid 43 hv (by decide)
    have n44 := testBit_false_of_mask valid 44 hv (by decide)
    cases hc0 : valid.testBit 0 <;> cases hc1 : valid.testBit 1 <;>
      cases hc2 : valid.testBit 2 <;> cases hc6 : valid.testBit 6 <;>
      cases hcA : valid.testBit 10 <;> cases hcS : valid.testBit 17 <;>
      cases hcR : valid.testBit 35 <;>
      simp [setupTablePointers, supStep, specConsumed, specRank, recordSize,
        supportedIds, List.filter, List.countP, List.countP.go, List.foldl,
        n4, n8, n9, n11, n12, n13, n14, n15, n16, n18, n20, n21, n23, n24,
        n25, n26, n27, n28, n29, n32, n33, n34, n36, n37, n38, n39, n40,
        n41, n42, n43, n44, hc0, hc1, hc2, hc6, hcA, hcS, hcR] <;> omega
  · intro th hth
    simp only [initMetadataTablesSetup] at hth
    split at hth
    · injection hth with hx
      injection hx with hy
      subst hy
      rw [popcountSpec_zero]
      rfl
    · split at hth
      · cases hth
      · injection hth with hx
        injection hx with hy
        subst hy
        dsimp only
        rw [readRows_length]
        exact countbits_eq_popcount _ (read64_lt _ _)

/-- C8 witness: `Valid = 67` (bits 0x00, 0x01, 0x06, all supported) with
rows `[4, 5, 6]`; and a concrete managed image with a `#~` stream whose
`Valid` is 1, for the row-count/popcount part. -/
theorem metadataTables_layout_witness :
    ((67 : Nat) &&& supportedMask = 67) ∧
    (setupTablePointers 67 [4, 5, 6] 100).map (fun s => s.cur) =
      some (100 + specConsumed 67 [4, 5, 6]) ∧
    ([2] : List Nat).length = popcountSpec 1 := by
  have h := metadataTables_layout
    [0, 0, 0, 0, 0, 0, 0, 0, 0, 0, 0, 0, 0, 0, 0, 0, 1, 0, 0, 0, 0, 0, 0, 0,
     0, 0, 0, 0, 0, 0, 0, 0, 2, 0, 0, 0]
    ⟨0, 0, 1, 1, 0, 0, 0, 0, 1, [⟨8, 0, [35, 126]⟩]⟩ 67 [4, 5, 6] 100 (by decide)
  refine ⟨by decide, h.1, ?_⟩
  have h2 := h.2 ⟨0, 0, 0, 1, 0, [2], ⟨36, 2, 0, 0, 0, 0, 0, 0, 0, 0, 0, 0, 0, 0⟩⟩
    (by decide)
  simpa using h2

theorem exportNameLoop_find (buf : List Nat) (secs : List CoffSection)
    (et : ExportDirectoryTableEntry) (index o : Nat) :
    ∀ (n off : Nat),
      exportNameLoop buf secs et index o off n =
        match (List.range' off n).find? (fun q => read16LE buf (o + 2 * q) == index) with
        | none => .ok []
        | some p =>
          match getRvaPtr secs 0 et.NamePointerRVA with
          | .error e => .error e
          | .ok np =>
            match getRvaPtr secs 0 (read32LE buf (np + 4 * p)) with
            | .error e => .error e
            | .ok sp => .ok (readCString buf sp) := by
  intro n
  induction n with
  | zero => intro off; rfl
  | succ n ih =>
    intro off
    rw [List.range'_succ]
    by_cases h : read16LE buf (o + 2 * off) = index
    · rw [List.find?_cons_of_pos _ (by simpa using h)]
      simp only [exportNameLoop, if_pos h]
    · rw [List.find?_cons_of_neg _ (by simpa using h)]
      rw [show exportNameLoop buf secs et index o off (n + 1) =
          exportNameLoop buf secs et index o (off + 1) n from by
        simp only [exportNameLoop, if_neg h]]
      exact ih (off + 1)

/-- C9: given that the ordinal table resolved to `o`, `getSymbolName`
scans the `NumberOfNamePointers` 16-bit ordinal entries in order; if the
first entry equal to `index` sits at position `p`, the result is the
NUL-terminated string at the RVA stored at position `p` of the parallel
name-pointer table; if no entry equals `index`, the result is the empty
string. -/
theorem exportSymbolName_spec (buf : List Nat) (secs : List CoffSection)
    (et : ExportDirectoryTableEntry) (index o : Nat)
    (ho : getRvaPtr secs 0 et.OrdinalTableRVA = .ok o) :
    ((List.range et.NumberOfNamePointers).find?
        (fun q => read16LE buf (o + 2 * q) == index) = none →
      exportGetSymbolName buf secs et index = .ok []) ∧
    (∀ p np sp,
      (List.range et.NumberOfNamePointers).find?
        (fun q => read16LE buf (o + 2 * q) == index) = some p →
      getRvaPtr secs 0 et.NamePointerRVA = .ok np →
      getRvaPtr secs 0 (read32LE buf (np + 4 * p)) = .ok sp →
      exportGetSymbolName buf secs et index = .ok (readCString buf sp)) := by
  have hloop := exportNameLoop_find buf secs et index o et.NumberOfNamePointers 0
  rw [List.range_eq_range']
  constructor
  · intro hnone
    show (match getRvaPtr secs 0 et.OrdinalTableRVA with
      | .error e => .error e
      | .ok o2 => exportNameLoop buf secs et index o2 0 et.NumberOfNamePointers) =
        Except.ok []
    rw [ho]
    show exportNameLoop buf secs et index o 0 et.NumberOfNamePointers = Except.ok []
    rw [hloop, hnone]
  · intro p np sp hfind hnp hsp
    show (match getRvaPtr secs 0 et.OrdinalTableRVA with
      | .error e => .error e
      | .ok o2 => exportNameLoop buf secs et index o2 0 et.NumberOfNamePointers) =
        Except.ok (readCString buf sp)
    rw [ho]
    show exportNameLoop buf secs et index o 0 et.NumberOfNamePointers =
      Except.ok (readCString buf sp)
    rw [hloop, hfind]
    show (match getRvaPtr secs 0 et.NamePointerRVA with
      | Except.error e => Except.error e
      | Except.ok np2 =>
        match getRvaPtr secs 0 (read32LE buf (np2 + 4 * p)) with
        | Except.error e => Except.error e
        | Except.ok sp2 => Except.ok (readCString buf sp2)) =
      Except.ok (readCString buf sp)
    rw [hnp]
    show (match getRvaPtr secs 0 (read32LE buf (np + 4 * p)) with
      | Except.error e => Except.error e
      | Except.ok sp2 => Except.ok (readCString buf sp2)) =
      Except.ok (readCString buf sp)
    rw [hsp]

/-- C9 witness: one section mapping RVAs to identical file offsets; the
ordinal table `[5, 7]` at RVA 0, the name-pointer table at RVA 4 whose
second entry points at the string `"AB"`; looking up index 7 finds
position 1 and the name, looking up index 9 finds nothing and yields the
empty string. -/
theorem exportSymbolName_spec_witness :
    exportGetSymbolName [5, 0, 7, 0, 99, 0, 0, 0, 12, 0, 0, 0, 65, 66, 0, 0]
      [{ VirtualSize := 16, SizeOfRawData := 16 }]
      { NumberOfNamePointers := 2, NamePointerRVA := 4 } 7 = .ok [65, 66] ∧
    exportGetSymbolName [5, 0, 7, 0, 99, 0, 0, 0, 12, 0, 0, 0, 65, 66, 0, 0]
      [{ VirtualSize := 16, SizeOfRawData := 16 }]
      { NumberOfNamePointers := 2, NamePointerRVA := 4 } 9 = .ok [] := by
  constructor
  · have h := (exportSymbolName_spec [5, 0, 7, 0, 99, 0, 0, 0, 12, 0, 0, 0, 65, 66, 0, 0]
      [{ VirtualSize := 16, SizeOfRawData := 16 }]
      { NumberOfNamePointers := 2, NamePointerRVA := 4 } 7 0 (by decide)).2
      1 4 12 (by decide) (by decide) (by decide)
    rw [h]
    decide
  · exact (exportSymbolName_spec [5, 0, 7, 0, 99, 0, 0, 0, 12, 0, 0, 0, 65, 66, 0, 0]
      [{ VirtualSize := 16, SizeOfRawData := 16 }]
      { NumberOfNamePointers := 2, NamePointerRVA := 4 } 9 0 (by decide)).1 (by decide)

/-- C10: the CLI metadata parsing stage cannot fail: for every buffer and
metadata pointer, `initMetadataPtr` and `initMetadataTablesSetup` never
produce an `error_code` other than success (no `unexpected-eof`, no
`parse-failed`, no bounds check of any kind); the tables stage either
hits the fatal assertion of `setupTablePointers` or succeeds; and the
metadata signature is stored exactly as read, without being compared to
`0x424A5342`. -/
theorem metadataParsing_total (buf : List Nat) (p : Nat) :
    (∀ e, initMetadataPtr buf p ≠ .value (.error e)) ∧
    (∀ hdr e, initMetadataTablesSetup buf hdr ≠ .value (.error e)) ∧
    (∀ hdr, initMetadataTablesSetup buf hdr = .assertFailed ∨
      ∃ t, initMetadataTablesSetup buf hdr = .value (.ok t)) ∧
    (∀ hp, initMetadataPtr buf p = .value (.ok hp) →
      hp.header.Signature = read32LE buf p) := by
  refine ⟨fun e => ?_, fun hdr e => ?_, fun hdr => ?_, fun hp h => ?_⟩
  · simp only [initMetadataPtr]
    split <;> simp
  · simp only [initMetadataTablesSetup]
    split
    · simp
    · split <;> simp
  · simp only [initMetadataTablesSetup]
    split
    · exact Or.inr ⟨_, rfl⟩
    · split
      · exact Or.inl rfl
      · exact Or.inr ⟨_, rfl⟩
  · simp only [initMetadataPtr] at h
    split at h
    · cases h
    · injection h with hx
      injection hx with hy
      subst hy
      rfl
    · injection h with hx
      injection hx with hy
      subst hy
      rfl

/-- C10 witness: the empty buffer parses to a header with signature 0
(= the dword read at the pointer), no streams and empty tables. -/
theorem metadataParsing_total_witness :
    initMetadataPtr [] 0 = .value (.ok ⟨⟨0, 0, 1, 1, 0, 0, 16, 0, 0, []⟩, {}⟩) ∧
    (⟨⟨0, 0, 1, 1, 0, 0, 16, 0, 0, []⟩, {}⟩ : ClrMetaParse).header.Signature =
      read32LE [] 0 := by
  refine ⟨by decide, ?_⟩
  exact (metadataParsing_total [] 0).2.2.2
    ⟨⟨0, 0, 1, 1, 0, 0, 16, 0, 0, []⟩, {}⟩ (by decide)

end CoffModel
